import Mathlib

/-!
Verification of the chunked-transfer reassembly and session logic of the
open-grid-monitor tooling (`tools/request_coredump.py`,
`tools/coredump_analyzer.py`, `tools/mqtt_ota_update.py`).

Modelling conventions:
* Byte strings are `List Nat` (the base64 transport encoding is elided; the
  `data` field of a parsed chunk message holds the decoded bytes, and the
  Python truthiness test on the base64 text is the emptiness test on those
  bytes).
* MQTT topics are represented by their slash-separated level lists
  (`List String`).  Levels are assumed slash-free, under which the
  representation is a bijection with topic strings and the string operations
  of the source (`split('/')`, substring tests such as `"/chunk/" in topic`,
  `startswith`, `endswith`, equality) translate level-wise; the translation
  of each is noted where it is used.
* Python dicts keyed by chunk index are insertion-ordered association lists
  with unique keys.
* Wall-clock time is discretised: 1 s steps for the request wait loop and
  0.1 s ticks for the discovery loop, matching the `time.sleep` quanta of
  the source.
-/

/-- Bytes of a chunk payload. -/
abbrev Bytes := List Nat

/-! ### String utilities (semantics of the Python `in`, `startswith`, `<` operations) -/

/-- Whether the first character list is an initial segment of the second
(Python `str.startswith`). -/
def charsPre : List Char → List Char → Bool
  | [], _ => true
  | _ :: _, [] => false
  | c :: cs, d :: ds => c == d && charsPre cs ds

/-- Whether the first character list occurs contiguously in the second. -/
def charsSub (pat : List Char) : List Char → Bool
  | [] => charsPre pat []
  | d :: ds => charsPre pat (d :: ds) || charsSub pat ds

/-- Python `pat in s` on strings. -/
def hasSubstr (pat s : String) : Bool := charsSub pat.toList s.toList

/-- Python `pat in s.lower()` (character-wise lowercasing, as for the ASCII
texts the source matches against). -/
def hasSubstrLower (pat s : String) : Bool :=
  charsSub pat.toList (s.toList.map Char.toLower)

/-- Lexicographic comparison of character lists by code point, the order
Python uses to compare strings. -/
def charsLe : List Char → List Char → Bool
  | [], _ => true
  | _ :: _, [] => false
  | a :: as, b :: bs => if a = b then charsLe as bs else decide (a < b)

/-- Python `a <= b` on strings. -/
def strLe (a b : String) : Bool := charsLe a.toList b.toList

/-! ### Chunk-index dictionary (Python `dict` keyed by `int` chunk index) -/

/-- First-match lookup in an association list (with unique keys this is the
Python `dict` lookup / `in` test). -/
def dictLookup (m : List (Nat × Bytes)) (k : Nat) : Option Bytes :=
  match m with
  | [] => none
  | (k1, v) :: rest => if k1 = k then some v else dictLookup rest k

/-- Python `d[k] = v`: replace the binding in place if the key is present
(keeping its position), otherwise append it. -/
def dictInsert : List (Nat × Bytes) → Nat → Bytes → List (Nat × Bytes)
  | [], k, v => [(k, v)]
  | (k1, v1) :: rest, k, v =>
      if k1 = k then (k, v) :: rest else (k1, v1) :: dictInsert rest k v

/-! ### Chunk Reassembly Buffer

Translated from `CoreDumpRequester` in `tools/request_coredump.py`
(`CoreDumpAnalyzer` in `tools/coredump_analyzer.py` is line-for-line the
same for these methods). -/

/-- The fields the Python code reads off a parsed JSON payload, with the
defaults the `.get` calls supply (`chunk_index` defaults to -1,
`total_chunks` to 0, `data` to the empty string, `total_size` to 0).
`data` holds the base64-decoded bytes; a payload whose base64 text fails to
decode is not representable and is never needed below. -/
structure JsonObj where
  chunk_index : Int := -1
  total_chunks : Int := 0
  data : Bytes := []
  total_size : Int := 0
  deriving DecidableEq

/-- Mutable state of the reassembly buffer (`__init__`). -/
structure CoreState where
  chunks : List (Nat × Bytes)
  header_info : Option JsonObj
  total_chunks : Int
  total_size : Int
  deriving DecidableEq

/-- Initial buffer state. -/
def initCore : CoreState := ⟨[], none, 0, 0⟩

/-- `_process_chunk`: store the payload and raise the declared total iff the
index is non-negative and the data non-empty (`if chunk_index >= 0 and
chunk_data:`); otherwise the message is dropped. -/
def process_chunk (s : CoreState) (d : JsonObj) : CoreState :=
  if 0 ≤ d.chunk_index ∧ d.data ≠ [] then
    { s with chunks := dictInsert s.chunks d.chunk_index.toNat d.data,
             total_chunks := max s.total_chunks d.total_chunks }
  else s

/-- Folding `_process_chunk` over a delivery sequence. -/
def process_chunks (s : CoreState) (msgs : List JsonObj) : CoreState :=
  msgs.foldl process_chunk s

/-- The ascending list of indices in `[0, total_chunks)` absent from the
chunk map (the `missing_chunks` loop of `_validate_chunks`). -/
def missing_chunks (s : CoreState) : List Nat :=
  (List.range s.total_chunks.toNat).filter (fun i => (dictLookup s.chunks i).isNone)

/-- `_validate_chunks`: false when no total was ever declared, otherwise
true iff no chunk is missing. -/
def validate_chunks (s : CoreState) : Bool :=
  if s.total_chunks = 0 then false
  else if missing_chunks s = [] then true else false

/-- The byte sequence `save_coredump` writes: for each index below the
declared total, in order, the stored bytes if present
(`for i in range(self.total_chunks): if i in self.chunks: f.write(...)`). -/
def save_bytes (s : CoreState) : Bytes :=
  (List.range s.total_chunks.toNat).foldl
    (fun acc i =>
      match dictLookup s.chunks i with
      | some b => acc ++ b
      | none => acc) []

/-- `save_coredump`: refuses (returns `False`) when the chunk map is empty,
otherwise writes `save_bytes` and succeeds.  File-system errors are elided. -/
def save_coredump (s : CoreState) : Option Bytes :=
  if s.chunks = [] then none else some (save_bytes s)

/-- Concatenation of a list of byte strings. -/
def concatBytes (l : List Bytes) : Bytes := l.foldr (· ++ ·) []

/-! ### Topic routing and the request session (`request_coredump.py`) -/

/-- Some level at index ≥ 1 starts with `pre`: the translation of the
substring test `"/<pre>" in topic` for slash-free levels (a slash is
exactly a level separator, so the pattern occurs iff some non-first level
starts with `pre`). -/
def hasLevelPre (pre : String) (parts : List String) : Bool :=
  (parts.drop 1).any (fun l => charsPre pre.toList l.toList)

/-- Some level equal to `"chunk"` at index ≥ 1 and not last: the
translation of the substring test `"/chunk/" in topic` for slash-free
levels. -/
def hasChunkLevel (parts : List String) : Bool :=
  ((parts.drop 1).dropLast).any (fun l => l == "chunk")

/-- An MQTT message as seen by `on_message`: the topic split into levels,
the utf-8 payload text, and the result of `json.loads` on that text
(`none` models a parse failure; the exception is caught and the message
dropped). -/
structure MqttMsg where
  topicParts : List String
  rawPayload : String
  jsonPayload : Option JsonObj
  deriving DecidableEq

/-- Session-visible state of `CoreDumpRequester`. -/
structure ReqState where
  core : CoreState
  request_completed : Bool
  deriving DecidableEq

/-- Initial session state. -/
def initReq : ReqState := ⟨initCore, false⟩

/-- `CoreDumpRequester.on_message` (lines 108–142): route by `topic.split('/')[2]`; a status
containing the no-data phrase, an error mentioning "core dump", or a
complete event sets `request_completed`; header/chunk/complete payloads
are fed to the buffer. -/
def CoreDumpRequester.on_message (s : ReqState) (m : MqttMsg) : ReqState :=
  if 3 ≤ m.topicParts.length then
    if m.topicParts.getD 2 "" = "status" then
      if hasSubstr "No core dump data available" m.rawPayload then
        { s with request_completed := true }
      else s
    else if m.topicParts.getD 2 "" = "error" then
      if hasSubstrLower "core dump" m.rawPayload then
        { s with request_completed := true }
      else s
    else if m.topicParts.getD 2 "" = "coredump" then
      if hasLevelPre "header" m.topicParts then
        match m.jsonPayload with
        | some o => { s with core := { s.core with header_info := some o } }
        | none => s
      else if hasChunkLevel m.topicParts then
        match m.jsonPayload with
        | some o => { s with core := process_chunk s.core o }
        | none => s
      else if hasLevelPre "complete" m.topicParts then
        match m.jsonPayload with
        | some o => { s with core := { s.core with total_size := o.total_size },
                             request_completed := true }
        | none => s
      else s
    else s
  else s

/-- Whether a message sets `request_completed`; this depends on the message
only, never on the state. -/
def CoreDumpRequester.completesMsg (m : MqttMsg) : Bool :=
  if 3 ≤ m.topicParts.length then
    if m.topicParts.getD 2 "" = "status" then
      hasSubstr "No core dump data available" m.rawPayload
    else if m.topicParts.getD 2 "" = "error" then
      hasSubstrLower "core dump" m.rawPayload
    else if m.topicParts.getD 2 "" = "coredump" then
      if hasLevelPre "header" m.topicParts then false
      else if hasChunkLevel m.topicParts then false
      else if hasLevelPre "complete" m.topicParts then m.jsonPayload.isSome
      else false
    else false
  else false

/-- Processing a delivery trace. -/
def CoreDumpRequester.run_msgs (s : ReqState) (msgs : List MqttMsg) : ReqState :=
  msgs.foldl CoreDumpRequester.on_message s

/-- Terminal session verdicts. -/
inductive Verdict where
  | succeeded
  | failed
  | timedOut
  deriving DecidableEq

/-- Outcome of `request_coredump` (lines 154–170) when every message of the
trace is delivered before the deadline: the wait loop exits early iff some
message set `request_completed`, and the function then returns
`_validate_chunks()`; otherwise `request_timeout` is set and it returns
`False`.  `succeeded` is return value `True`; `failed` is `False` with
`request_timeout` unset; `timedOut` is `False` with `request_timeout`
set. -/
def request_verdict (msgs : List MqttMsg) : Verdict :=
  let s := CoreDumpRequester.run_msgs initReq msgs
  if s.request_completed then
    if validate_chunks s.core then Verdict.succeeded else Verdict.failed
  else Verdict.timedOut

/-- The `main` flow (lines 272–287): `save_coredump` is invoked only when
`request_coredump` returned success. -/
def request_and_save (msgs : List MqttMsg) : Option Bytes :=
  if request_verdict msgs = Verdict.succeeded then
    save_coredump (CoreDumpRequester.run_msgs initReq msgs).core
  else none

/-- The wait loop of `request_coredump` (lines 155–158): one iteration per
`time.sleep(1)` second, so the deadline and the completion flag are
re-checked every single second.  `fuel` is the number of whole seconds
left before the deadline, `t` the elapsed seconds, `flagAt t` the value of
`request_completed` at second `t`; the result is the exit time. -/
def poll_wait (flagAt : Nat → Bool) : Nat → Nat → Nat
  | 0, t => t
  | fuel + 1, t => if flagAt t then t else poll_wait flagAt fuel (t + 1)

/-- Device-mode chunk topic; the final level is never inspected by the
router (the chunk index is read from the JSON payload), so a fixed
placeholder level stands for the index. -/
def chunkTopic : List String := ["open_grid_monitor", "dev", "coredump", "chunk", "n"]

/-- A chunk message: payload `{chunk_index: i, total_chunks: N, data: d}`. -/
def chunk_msg (i N : Nat) (d : Bytes) : MqttMsg :=
  ⟨chunkTopic, "", some { chunk_index := (i : Int), total_chunks := (N : Int), data := d }⟩

/-- A completion message carrying `total_size`. -/
def complete_msg (ts : Int) : MqttMsg :=
  ⟨["open_grid_monitor", "dev", "coredump", "complete"], "", some { total_size := ts }⟩

/-- The "nothing to transfer" status event. -/
def status_nodata_msg : MqttMsg :=
  ⟨["open_grid_monitor", "dev", "status"], "No core dump data available", none⟩

/-- A device error mentioning the requested capability. -/
def error_coredump_msg : MqttMsg :=
  ⟨["open_grid_monitor", "dev", "error"], "Core dump read failed", none⟩

/-! ### Claim C6: failure on a matching error event -/

/-- The error events that complete the session: an `error`-category topic
whose text mentions "core dump" (case-insensitively). -/
def is_matching_error (m : MqttMsg) : Bool :=
  (decide (3 ≤ m.topicParts.length)) && (m.topicParts.getD 2 "" == "error")
    && hasSubstrLower "core dump" m.rawPayload

/-! ### Claim C10: subscription filters of `request_coredump` -/

/-- MQTT topic-filter matching on level lists: `+` matches exactly one
level.  No subscription of this tool uses `#`. -/
def filter_matches : List String → List String → Bool
  | [], [] => true
  | f :: fs, t :: ts => (f == "+" || f == t) && filter_matches fs ts
  | _, _ => false

/-- Device-specific subscriptions (`on_connect`, lines 85–99): the first
`topic_pattern` assignment (`…/coredump`) is immediately overwritten by
`…/coredump/chunk/+`, so only the chunk, status and error filters are
subscribed. -/
def device_subs (dev : String) : List (List String) :=
  [["open_grid_monitor", dev, "coredump", "chunk", "+"],
   ["open_grid_monitor", dev, "status"],
   ["open_grid_monitor", dev, "error"]]

/-- Broadcast-mode subscriptions (`on_connect`, lines 91–99). -/
def broadcast_subs : List (List String) :=
  [["open_grid_monitor", "+", "coredump", "+"],
   ["open_grid_monitor", "+", "status"],
   ["open_grid_monitor", "+", "error"]]

/-- The topic a device publishes chunk `idx` on. -/
def chunk_topic_of (dev idx : String) : List String :=
  ["open_grid_monitor", dev, "coredump", "chunk", idx]

/-- The topic a device publishes its coredump header on. -/
def header_topic_of (dev : String) : List String :=
  ["open_grid_monitor", dev, "coredump", "header"]

/-- The topic a device publishes its completion event on. -/
def complete_topic_of (dev : String) : List String :=
  ["open_grid_monitor", dev, "coredump", "complete"]

/-! ### Device discovery and the OTA status handler (`mqtt_ota_update.py`) -/

/-- State of `MQTTOTAUpdater` used by the claims: the discovery set (a
Python `set`, modelled as a first-occurrence membership list), the
selected device, the OTA start time, the progress-sample history (each
entry records the status text that produced the sample; the
floating-point `(timestamp, percentage, bytes, speed)` tuple and its
conversion are elided, as no claim depends on the numeric values), and the
audit list `status_updates`. -/
structure OtaState where
  discovered_devices : List String
  selected_device : Option String
  ota_start_time : Option Nat
  ota_progress_data : List String
  status_updates : List (List String × String)
  deriving DecidableEq

/-- Python `self.selected_device and topic == f"{BASE}/{dev}/{cat}"`
(a `None` selected device is falsy). -/
def isSelTopic (sel : Option String) (cat : String) (topic : List String) : Bool :=
  match sel with
  | none => false
  | some d => topic == ["open_grid_monitor", d, cat]

/-- `_show_ota_completion_stats` (lines 347–372): a no-op without a start
time or without samples; otherwise prints statistics and resets the
tracking state. -/
def show_ota_completion_stats (s : OtaState) : OtaState :=
  if s.ota_start_time.isNone ∨ s.ota_progress_data = [] then s
  else { s with ota_start_time := none, ota_progress_data := [] }

/-- The branch chain of `MQTTOTAUpdater.on_message` (lines 128–182).  The
condition at line 170 repeats the condition at line 136 verbatim and is
translated verbatim in the same `if` chain.  `startswith(BASE + "/")` and
`endswith("/measurement")` translate to head/last level tests (with at
least two levels) for slash-free levels. -/
def MQTTOTAUpdater.route (s : OtaState) (now : Nat) (topic : List String)
    (payload : String) : OtaState :=
  if topic.headD "" = "open_grid_monitor" ∧ 2 ≤ topic.length
      ∧ topic.getLastD "" = "measurement" then
    if topic.getD 1 "" ∈ s.discovered_devices then s
    else { s with discovered_devices := s.discovered_devices ++ [topic.getD 1 ""] }
  else if isSelTopic s.selected_device "status" topic then
    if hasSubstr "OTA Progress:" payload ∧ s.ota_start_time.isSome then
      if hasSubstr "%" payload then
        { s with ota_progress_data := s.ota_progress_data ++ [payload] }
      else s
    else s
  else if isSelTopic s.selected_device "error" topic then s
  else if isSelTopic s.selected_device "status" topic then
    if hasSubstr "OTA" payload then
      if hasSubstr "Starting OTA" payload ∨ hasSubstr "OTA started" payload then
        { s with ota_start_time := some now, ota_progress_data := [] }
      else if hasSubstr "OTA completed" payload ∨ hasSubstr "OTA finished" payload
          ∨ hasSubstr "OTA update completed successfully" payload then
        show_ota_completion_stats s
      else s
    else if hasSubstrLower "restart" payload then s
    else s
  else s

/-- `MQTTOTAUpdater.on_message` (lines 123–184): the branch chain followed
by the unconditional `status_updates.append` (line 184). -/
def MQTTOTAUpdater.on_message (s : OtaState) (now : Nat) (topic : List String)
    (payload : String) : OtaState :=
  let s1 := MQTTOTAUpdater.route s now topic payload
  { s1 with status_updates := s1.status_updates ++ [(topic, payload)] }

/-- A telemetry sighting: `device` first appears in `discovered_devices`
at poll tick `tick` (0.1 s units). -/
structure Sighting where
  device : String
  tick : Nat
  deriving DecidableEq

/-- Python `if device_id not in discovered: discovered.add(device_id)`
(lines 131–132) on the membership-list model of the set. -/
def addDevice (acc : List String) (d : String) : List String :=
  if d ∈ acc then acc else acc ++ [d]

/-- The discovery set at poll tick `t`: every sighting that has arrived by
`t`, folded through the `on_message` discovery branch. -/
def discoveredAt (sightings : List Sighting) (t : Nat) : List String :=
  (sightings.filter (fun sg => sg.tick ≤ t)).foldl
    (fun acc sg => addDevice acc sg.device) []

/-- The polling loop of `discover_devices` in auto mode (lines 222–231):
one iteration per `time.sleep(0.1)` tick; in auto mode the loop breaks at
the first poll tick at which the discovery set is non-empty, otherwise it
runs out the window.  `fuel` is the number of ticks left in the window;
the result is the exit tick. -/
def discover_loop (sightings : List Sighting) : Nat → Nat → Nat
  | 0, t => t
  | fuel + 1, t =>
      if discoveredAt sightings (t + 1) ≠ [] then t + 1
      else discover_loop sightings fuel (t + 1)

/-- One step of Python `sorted`: insert into a sorted list. -/
def ordIns (x : String) : List String → List String
  | [] => [x]
  | y :: ys => if strLe x y then x :: y :: ys else y :: ordIns x ys

/-- Python `sorted` on the discovered identifiers (insertion sort; any
stable comparison sort has the same result). -/
def pySorted : List String → List String
  | [] => []
  | x :: xs => ordIns x (pySorted xs)

/-- `discover_devices(auto_mode=True)` (lines 209–241): run the early-stop
window, then `sorted(list(self.discovered_devices))`. -/
def discover_devices_auto (sightings : List Sighting) (timeoutTicks : Nat) :
    List String :=
  pySorted (discoveredAt sightings (discover_loop sightings timeoutTicks 0))

/-- `select_device_auto` (lines 243–259): `device_list[0]`, or `None` when
the list is empty. -/
def select_device_auto (l : List String) : Option String := l.head?

theorem charsLe_refl (l : List Char) : charsLe l l = true := by
  induction l with
  | nil => rfl
  | cons a as ih => simp [charsLe, ih]

theorem charsLe_total (a b : List Char) : charsLe a b = true ∨ charsLe b a = true := by
  induction a generalizing b with
  | nil => exact Or.inl rfl
  | cons x xs ih =>
    cases b with
    | nil => exact Or.inr rfl
    | cons y ys =>
      by_cases hxy : x = y
      · subst hxy
        rcases ih ys with h | h
        · exact Or.inl (by simp [charsLe, h])
        · exact Or.inr (by simp [charsLe, h])
      · rcases lt_or_gt_of_ne hxy with h | h
        · exact Or.inl (by simp [charsLe, hxy, h])
        · exact Or.inr (by simp [charsLe, Ne.symm hxy, h])

theorem charsLe_trans {a b c : List Char} (h1 : charsLe a b = true)
    (h2 : charsLe b c = true) : charsLe a c = true := by
  induction a generalizing b c with
  | nil => rfl
  | cons x xs ih =>
    cases b with
    | nil => simp [charsLe] at h1
    | cons y ys =>
      cases c with
      | nil => simp [charsLe] at h2
      | cons z zs =>
        by_cases hxy : x = y <;> by_cases hyz : y = z
        · subst hxy; subst hyz
          simp only [charsLe, if_pos rfl] at h1 h2 ⊢
          exact ih h1 h2
        · subst hxy
          simp only [charsLe, if_pos rfl, if_neg hyz] at h2 ⊢
          exact h2
        · subst hyz
          simp only [charsLe, if_pos rfl, if_neg hxy] at h1 ⊢
          exact h1
        · simp only [charsLe, if_neg hxy, if_neg hyz, decide_eq_true_eq] at h1 h2
          have hxz : x < z := lt_trans h1 h2
          have : x ≠ z := ne_of_lt hxz
          simp [charsLe, this, hxz]

theorem strLe_refl (s : String) : strLe s s = true := charsLe_refl _

theorem strLe_total (a b : String) : strLe a b = true ∨ strLe b a = true :=
  charsLe_total _ _

theorem strLe_trans {a b c : String} (h1 : strLe a b = true) (h2 : strLe b c = true) :
    strLe a c = true := charsLe_trans h1 h2

theorem dictLookup_insert_self (m : List (Nat × Bytes)) (k : Nat) (v : Bytes) :
    dictLookup (dictInsert m k v) k = some v := by
  induction m with
  | nil => simp [dictInsert, dictLookup]
  | cons p rest ih =>
    rcases p with ⟨k1, v1⟩
    by_cases hk : k1 = k
    · simp [dictInsert, hk, dictLookup]
    · simp [dictInsert, hk, dictLookup, ih]

theorem dictLookup_insert_ne (m : List (Nat × Bytes)) (k j : Nat) (v : Bytes)
    (h : j ≠ k) : dictLookup (dictInsert m k v) j = dictLookup m j := by
  induction m with
  | nil => simp [dictInsert, dictLookup, Ne.symm h]
  | cons p rest ih =>
    rcases p with ⟨k1, v1⟩
    by_cases hk : k1 = k
    · subst hk
      simp [dictInsert, dictLookup, Ne.symm h]
    · simp [dictInsert, hk, dictLookup, ih]

theorem dictInsert_ne_nil (m : List (Nat × Bytes)) (k : Nat) (v : Bytes) :
    dictInsert m k v ≠ [] := by
  cases m with
  | nil => simp [dictInsert]
  | cons p rest =>
    rcases p with ⟨k1, v1⟩
    by_cases hk : k1 = k <;> simp [dictInsert, hk]

theorem dictLookup_isSome_ne_nil {m : List (Nat × Bytes)} {k : Nat} {v : Bytes}
    (h : dictLookup m k = some v) : m ≠ [] := by
  intro hnil; subst hnil; simp [dictLookup] at h

/-- Keys present after an insertion. -/
theorem mem_keys_dictInsert {m : List (Nat × Bytes)} {k j : Nat} {v : Bytes} :
    j ∈ (dictInsert m k v).map Prod.fst ↔ j ∈ m.map Prod.fst ∨ j = k := by
  induction m with
  | nil => simp [dictInsert]
  | cons p rest ih =>
    rcases p with ⟨k1, v1⟩
    by_cases hk : k1 = k
    · subst hk
      simp [dictInsert]
      tauto
    · simp [dictInsert, hk, ih]
      tauto

/-- Insertion preserves uniqueness of keys. -/
theorem keys_nodup_dictInsert {m : List (Nat × Bytes)} {k : Nat} {v : Bytes}
    (hnd : (m.map Prod.fst).Nodup) : ((dictInsert m k v).map Prod.fst).Nodup := by
  induction m with
  | nil => simp [dictInsert]
  | cons p rest ih =>
    rcases p with ⟨k1, v1⟩
    simp only [List.map_cons, List.nodup_cons] at hnd
    by_cases hk : k1 = k
    · subst hk
      simp only [dictInsert, eq_self_iff_true, if_true, List.map_cons, List.nodup_cons]
      exact ⟨hnd.1, hnd.2⟩
    · simp only [dictInsert, if_neg hk, List.map_cons, List.nodup_cons]
      refine ⟨?_, ih hnd.2⟩
      intro hmem
      rcases mem_keys_dictInsert.mp hmem with h | h
      · exact hnd.1 h
      · exact hk h

/-- Replacing a binding by the value it already has leaves the dictionary
unchanged, provided keys are unique. -/
theorem dictInsert_self_eq {m : List (Nat × Bytes)} {k : Nat} {v : Bytes}
    (hnd : (m.map Prod.fst).Nodup) (h : dictLookup m k = some v) :
    dictInsert m k v = m := by
  induction m with
  | nil => simp [dictLookup] at h
  | cons p rest ih =>
    rcases p with ⟨k1, v1⟩
    simp only [List.map_cons, List.nodup_cons] at hnd
    by_cases hk : k1 = k
    · subst hk
      simp only [dictLookup, eq_self_iff_true, if_true, Option.some.injEq] at h
      subst h
      simp [dictInsert]
    · simp only [dictLookup, if_neg hk] at h
      simp [dictInsert, hk, ih hnd.2 h]

/-! ### Basic facts about the buffer operations -/

theorem process_chunks_nil (s : CoreState) : process_chunks s [] = s := rfl

theorem process_chunks_cons (s : CoreState) (a : JsonObj) (l : List JsonObj) :
    process_chunks s (a :: l) = process_chunks (process_chunk s a) l := rfl

theorem process_chunk_header (s : CoreState) (d : JsonObj) :
    (process_chunk s d).header_info = s.header_info := by
  unfold process_chunk; split <;> rfl

theorem process_chunk_total (s : CoreState) (d : JsonObj) :
    (process_chunk s d).total_chunks =
      if 0 ≤ d.chunk_index ∧ d.data ≠ [] then max s.total_chunks d.total_chunks
      else s.total_chunks := by
  unfold process_chunk; split <;> simp_all

theorem process_chunk_total_mono (s : CoreState) (d : JsonObj) :
    s.total_chunks ≤ (process_chunk s d).total_chunks := by
  rw [process_chunk_total]; split
  · exact le_max_left _ _
  · exact le_refl _

theorem total_mono (msgs : List JsonObj) (s : CoreState) :
    s.total_chunks ≤ (process_chunks s msgs).total_chunks := by
  induction msgs generalizing s with
  | nil => exact le_refl _
  | cons a l ih =>
    rw [process_chunks_cons]
    exact le_trans (process_chunk_total_mono s a) (ih _)

theorem total_le_after (msgs : List JsonObj) (s : CoreState) (N : Int)
    (hub : ∀ m ∈ msgs, m.total_chunks ≤ N) (hs : s.total_chunks ≤ N) :
    (process_chunks s msgs).total_chunks ≤ N := by
  induction msgs generalizing s with
  | nil => exact hs
  | cons a l ih =>
    rw [process_chunks_cons]
    refine ih _ (fun m hm => hub m (List.mem_cons_of_mem _ hm)) ?_
    rw [process_chunk_total]
    split
    · exact max_le hs (hub a (List.mem_cons_self a l))
    · exact hs

theorem total_ge_of_mem (msgs : List JsonObj) (s : CoreState) (m : JsonObj)
    (hm : m ∈ msgs) (hok : 0 ≤ m.chunk_index ∧ m.data ≠ []) :
    m.total_chunks ≤ (process_chunks s msgs).total_chunks := by
  induction msgs generalizing s with
  | nil => cases hm
  | cons a l ih =>
    rw [process_chunks_cons]
    rcases List.mem_cons.mp hm with rfl | hm2
    · refine le_trans ?_ (total_mono l _)
      rw [process_chunk_total, if_pos hok]
      exact le_max_right _ _
    · exact ih _ hm2

/-- Processing a list of chunk messages none of which stores at key `k`
leaves the lookup at `k` untouched. -/
theorem lookup_none_of_no_msg (msgs : List JsonObj) (s : CoreState) (k : Nat)
    (hnone : ∀ b ∈ msgs, (0 ≤ b.chunk_index ∧ b.data ≠ []) → b.chunk_index.toNat ≠ k) :
    dictLookup (process_chunks s msgs).chunks k = dictLookup s.chunks k := by
  induction msgs generalizing s with
  | nil => rfl
  | cons a l ih =>
    rw [process_chunks_cons]
    rw [ih _ (fun b hb => hnone b (List.mem_cons_of_mem _ hb))]
    by_cases hok : 0 ≤ a.chunk_index ∧ a.data ≠ []
    · have hne : k ≠ a.chunk_index.toNat :=
        Ne.symm (hnone a (List.mem_cons_self a l) hok)
      simp [process_chunk, hok, dictLookup_insert_ne _ _ _ _ hne]
    · simp [process_chunk, hok]

/-- With pairwise-distinct indices, a delivered, accepted chunk is stored at
its index with exactly its payload after the whole list is processed. -/
theorem stored_after (msgs : List JsonObj) (s : CoreState) (m : JsonObj)
    (hm : m ∈ msgs) (hok : 0 ≤ m.chunk_index ∧ m.data ≠ [])
    (hdist : msgs.Pairwise (fun a b => a.chunk_index ≠ b.chunk_index)) :
    dictLookup (process_chunks s msgs).chunks m.chunk_index.toNat = some m.data := by
  induction msgs generalizing s with
  | nil => cases hm
  | cons a l ih =>
    rcases List.pairwise_cons.mp hdist with ⟨ha, hl⟩
    rw [process_chunks_cons]
    rcases List.mem_cons.mp hm with rfl | hm2
    · rw [lookup_none_of_no_msg l _ _ (fun b hb hbok => by
        have := ha b hb
        omega)]
      simp [process_chunk, hok, dictLookup_insert_self]
    · exact ih _ hm2 hl

theorem keys_nodup_process (msgs : List JsonObj) (s : CoreState)
    (hnd : (s.chunks.map Prod.fst).Nodup) :
    ((process_chunks s msgs).chunks.map Prod.fst).Nodup := by
  induction msgs generalizing s with
  | nil => exact hnd
  | cons a l ih =>
    rw [process_chunks_cons]
    refine ih _ ?_
    by_cases hok : 0 ≤ a.chunk_index ∧ a.data ≠ []
    · simpa [process_chunk, hok] using keys_nodup_dictInsert hnd
    · simpa [process_chunk, hok] using hnd

theorem foldl_append_filterMap (f : Nat → Option Bytes) (l : List Nat) (acc : Bytes) :
    l.foldl (fun acc i => match f i with | some b => acc ++ b | none => acc) acc
      = acc ++ concatBytes (l.filterMap f) := by
  induction l generalizing acc with
  | nil => simp [concatBytes]
  | cons x xs ih =>
    cases hfx : f x with
    | none => simp [List.filterMap_cons, hfx, ih]
    | some b => simp [List.filterMap_cons, hfx, ih, concatBytes, List.append_assoc]

theorem save_bytes_eq (s : CoreState) :
    save_bytes s
      = concatBytes ((List.range s.total_chunks.toNat).filterMap (dictLookup s.chunks)) := by
  unfold save_bytes
  rw [foldl_append_filterMap]
  rfl

/-- The user-visible output of validation and materialization depends only
on the declared total, the lookup function of the chunk map, and its
emptiness. -/
theorem obs_eq (s1 s2 : CoreState)
    (htot : s1.total_chunks = s2.total_chunks)
    (hlook : ∀ k : Nat, dictLookup s1.chunks k = dictLookup s2.chunks k)
    (hnil : s1.chunks = [] ↔ s2.chunks = []) :
    validate_chunks s1 = validate_chunks s2 ∧ save_coredump s1 = save_coredump s2 := by
  have hmiss : missing_chunks s1 = missing_chunks s2 := by
    unfold missing_chunks
    rw [htot]
    exact List.filter_congr (fun i _ => by rw [hlook i])
  have hsb : save_bytes s1 = save_bytes s2 := by
    rw [save_bytes_eq, save_bytes_eq, htot]
    congr 1
    exact List.filterMap_congr (fun i _ => hlook i)
  constructor
  · unfold validate_chunks
    rw [htot, hmiss]
  · unfold save_coredump
    by_cases h1 : s1.chunks = []
    · rw [if_pos h1, if_pos (hnil.mp h1)]
    · rw [if_neg h1, if_neg (fun h2 => h1 (hnil.mpr h2)), hsb]

/-! ### Claim C2: acceptance condition of `_process_chunk` -/

/-- C2, counterexample.  The claim says acceptance fails exactly when the
index is negative; but a chunk with index 0 and empty payload is also
dropped (`if chunk_index >= 0 and chunk_data:`): nothing is stored at
index 0 and the declared total is not raised to `max(0, 1) = 1`. -/
theorem C2_counterexample :
    ¬(({ chunk_index := 0, total_chunks := 1, data := [] } : JsonObj).chunk_index < 0)
  ∧ dictLookup (process_chunk initCore
      { chunk_index := 0, total_chunks := 1, data := [] }).chunks 0 = none
  ∧ (process_chunk initCore
      { chunk_index := 0, total_chunks := 1, data := [] }).total_chunks = 0 := by
  decide

/-- C2, amended: `_process_chunk` drops the message (state unchanged)
exactly when the index is negative or the payload is empty; otherwise it
stores the payload at its index, leaves every other index untouched, and
raises the declared total to the maximum of the old and declared values;
the declared total never decreases. -/
theorem C2_accept_chunk (s : CoreState) (d : JsonObj) :
    ((d.chunk_index < 0 ∨ d.data = []) → process_chunk s d = s)
  ∧ (0 ≤ d.chunk_index → d.data ≠ [] →
      dictLookup (process_chunk s d).chunks d.chunk_index.toNat = some d.data
      ∧ (∀ k : Nat, k ≠ d.chunk_index.toNat →
          dictLookup (process_chunk s d).chunks k = dictLookup s.chunks k)
      ∧ (process_chunk s d).total_chunks = max s.total_chunks d.total_chunks)
  ∧ s.total_chunks ≤ (process_chunk s d).total_chunks := by
  refine ⟨?_, ?_, process_chunk_total_mono s d⟩
  · intro h
    have : ¬(0 ≤ d.chunk_index ∧ d.data ≠ []) := by
      rcases h with h | h
      · exact fun hc => absurd hc.1 (not_le.mpr h)
      · exact fun hc => hc.2 h
    simp [process_chunk, this]
  · intro h1 h2
    have hok : 0 ≤ d.chunk_index ∧ d.data ≠ [] := ⟨h1, h2⟩
    refine ⟨?_, ?_, ?_⟩
    · simp [process_chunk, hok, dictLookup_insert_self]
    · intro k hk
      simp [process_chunk, hok, dictLookup_insert_ne _ _ _ _ hk]
    · simp [process_chunk, hok]

/-- C2 witness: concrete accepted chunk. -/
theorem C2_accept_chunk_witness :
    ((0 : Int) ≤ 0 ∧ ([65] : Bytes) ≠ [])
  ∧ dictLookup (process_chunk initCore
      { chunk_index := 0, total_chunks := 3, data := [65] }).chunks 0 = some [65]
  ∧ (process_chunk initCore
      { chunk_index := 0, total_chunks := 3, data := [65] }).total_chunks = max 0 3 := by
  refine ⟨by decide, ?_, ?_⟩
  · exact ((C2_accept_chunk initCore
      { chunk_index := 0, total_chunks := 3, data := [65] }).2.1 (by decide) (by decide)).1
  · exact ((C2_accept_chunk initCore
      { chunk_index := 0, total_chunks := 3, data := [65] }).2.1 (by decide) (by decide)).2.2

/-! ### Claim C3: completeness check and missing report -/

/-- Characterisation of `_validate_chunks` for states with a non-negative
declared total (an invariant of every reachable state). -/
theorem validate_chunks_iff (s : CoreState) (h : 0 ≤ s.total_chunks) :
    validate_chunks s = true ↔
      (0 < s.total_chunks
        ∧ ∀ i : Nat, i < s.total_chunks.toNat → (dictLookup s.chunks i).isSome = true) := by
  unfold validate_chunks
  by_cases h0 : s.total_chunks = 0
  · simp [h0]
  · have hpos : 0 < s.total_chunks := lt_of_le_of_ne h (Ne.symm h0)
    rw [if_neg h0]
    constructor
    · intro hv
      have hmiss : missing_chunks s = [] := by
        by_contra hne
        rw [if_neg hne] at hv
        exact Bool.false_ne_true hv
      refine ⟨hpos, fun i hi => ?_⟩
      have := List.filter_eq_nil_iff.mp hmiss i (List.mem_range.mpr hi)
      simpa [Option.isNone_iff_eq_none, Option.isSome_iff_ne_none] using this
    · rintro ⟨-, hall⟩
      have hmiss : missing_chunks s = [] := by
        refine List.filter_eq_nil_iff.mpr (fun i hi => ?_)
        have := hall i (List.mem_range.mp hi)
        simp [Option.isNone_iff_eq_none, Option.isSome_iff_ne_none] at this ⊢
        exact this
      rw [if_pos hmiss]

/-- C3: for every buffer state with a non-negative declared total (an
invariant of every reachable state), `_validate_chunks` succeeds iff the
declared total is positive and every index below it is stored; the missing
list contains exactly the absent indices below the declared total, in
strictly ascending order. -/
theorem C3_completeness_and_missing (s : CoreState) (h : 0 ≤ s.total_chunks) :
    (validate_chunks s = true ↔
      (0 < s.total_chunks
        ∧ ∀ i : Nat, i < s.total_chunks.toNat → (dictLookup s.chunks i).isSome = true))
  ∧ (∀ i : Nat, i ∈ missing_chunks s ↔
      (i < s.total_chunks.toNat ∧ dictLookup s.chunks i = none))
  ∧ (missing_chunks s).Pairwise (· < ·) := by
  refine ⟨validate_chunks_iff s h, ?_, ?_⟩
  · intro i
    simp [missing_chunks, List.mem_filter, List.mem_range, Option.isNone_iff_eq_none]
  · exact List.Pairwise.sublist (List.filter_sublist _) (List.pairwise_lt_range _)

/-- C3 witness: the spec example, chunks stored at indices 2 and 0 with a
declared total of 3; index 1 is missing, validation fails, and the missing
report is exactly `[1]`. -/
theorem C3_completeness_and_missing_witness :
    validate_chunks (process_chunks initCore
      [{ chunk_index := 2, total_chunks := 3, data := [67, 68] },
       { chunk_index := 0, total_chunks := 3, data := [65, 66] }]) = false
  ∧ missing_chunks (process_chunks initCore
      [{ chunk_index := 2, total_chunks := 3, data := [67, 68] },
       { chunk_index := 0, total_chunks := 3, data := [65, 66] }]) = [1]
  ∧ ((validate_chunks (process_chunks initCore
      [{ chunk_index := 2, total_chunks := 3, data := [67, 68] },
       { chunk_index := 0, total_chunks := 3, data := [65, 66] }]) = true ↔
      (0 < (process_chunks initCore
        [{ chunk_index := 2, total_chunks := 3, data := [67, 68] },
         { chunk_index := 0, total_chunks := 3, data := [65, 66] }]).total_chunks
        ∧ ∀ i : Nat, i < (process_chunks initCore
            [{ chunk_index := 2, total_chunks := 3, data := [67, 68] },
             { chunk_index := 0, total_chunks := 3, data := [65, 66] }]).total_chunks.toNat →
            (dictLookup (process_chunks initCore
              [{ chunk_index := 2, total_chunks := 3, data := [67, 68] },
               { chunk_index := 0, total_chunks := 3, data := [65, 66] }]).chunks i).isSome = true))) := by
  refine ⟨by decide, by decide, ?_⟩
  exact ((C3_completeness_and_missing (process_chunks initCore
    [{ chunk_index := 2, total_chunks := 3, data := [67, 68] },
     { chunk_index := 0, total_chunks := 3, data := [65, 66] }]) (by decide))).1

/-! ### Claim C4: materialization -/

theorem filterMap_eq_map_of_isSome (f : Nat → Option Bytes) (l : List Nat)
    (h : ∀ a ∈ l, (f a).isSome = true) :
    l.filterMap f = l.map (fun a => (f a).getD []) := by
  induction l with
  | nil => rfl
  | cons x xs ih =>
    obtain ⟨b, hb⟩ := Option.isSome_iff_exists.mp (h x (List.mem_cons_self x xs))
    simp [List.filterMap_cons, hb, ih (fun a ha => h a (List.mem_cons_of_mem _ ha))]

/-- C4, counterexample.  A buffer with one stored chunk out of a declared
total of two fails validation, yet `save_coredump` does not fail: it writes
the present chunk (missing indices are silently skipped by
`if i in self.chunks`) and reports success. -/
theorem C4_counterexample :
    validate_chunks (process_chunks initCore
      [{ chunk_index := 0, total_chunks := 2, data := [65] }]) = false
  ∧ save_coredump (process_chunks initCore
      [{ chunk_index := 0, total_chunks := 2, data := [65] }]) = some [65] := by
  decide

/-- C4, amended: `save_coredump` fails exactly when the chunk map is empty;
otherwise it concatenates the stored chunks among indices
`[0, total_chunks)` in index order, skipping absent indices.  In
particular, when the completeness check succeeds, every index below the
declared total is present and the output is exactly
`chunks[0] ++ chunks[1] ++ … ++ chunks[total-1]`.  Completeness gating
happens in the caller, which materializes only after validation succeeds. -/
theorem C4_materialize (s : CoreState) (h : 0 ≤ s.total_chunks) :
    (save_coredump s = none ↔ s.chunks = [])
  ∧ (validate_chunks s = true →
      save_coredump s = some (concatBytes ((List.range s.total_chunks.toNat).map
        (fun i => (dictLookup s.chunks i).getD [])))
      ∧ ∀ i : Nat, i < s.total_chunks.toNat → (dictLookup s.chunks i).isSome = true) := by
  constructor
  · unfold save_coredump
    split <;> simp_all
  · intro hv
    obtain ⟨hpos, hall⟩ := (validate_chunks_iff s h).mp hv
    have h0 : (0 : Nat) < s.total_chunks.toNat := by omega
    obtain ⟨b, hb⟩ := Option.isSome_iff_exists.mp (hall 0 h0)
    have hne : s.chunks ≠ [] := dictLookup_isSome_ne_nil hb
    refine ⟨?_, hall⟩
    unfold save_coredump
    rw [if_neg hne, save_bytes_eq]
    congr 2
    exact filterMap_eq_map_of_isSome _ _ (fun a ha => hall a (List.mem_range.mp ha))

/-- C4 witness: a complete two-chunk buffer materializes to the in-order
concatenation. -/
theorem C4_materialize_witness :
    (0 : Int) ≤ (process_chunks initCore
      [{ chunk_index := 0, total_chunks := 2, data := [65] },
       { chunk_index := 1, total_chunks := 2, data := [66, 67] }]).total_chunks
  ∧ validate_chunks (process_chunks initCore
      [{ chunk_index := 0, total_chunks := 2, data := [65] },
       { chunk_index := 1, total_chunks := 2, data := [66, 67] }]) = true
  ∧ save_coredump (process_chunks initCore
      [{ chunk_index := 0, total_chunks := 2, data := [65] },
       { chunk_index := 1, total_chunks := 2, data := [66, 67] }])
      = some (concatBytes ((List.range (process_chunks initCore
          [{ chunk_index := 0, total_chunks := 2, data := [65] },
           { chunk_index := 1, total_chunks := 2, data := [66, 67] }]).total_chunks.toNat).map
        (fun i => (dictLookup (process_chunks initCore
          [{ chunk_index := 0, total_chunks := 2, data := [65] },
           { chunk_index := 1, total_chunks := 2, data := [66, 67] }]).chunks i).getD []))) := by
  refine ⟨by decide, by decide, ?_⟩
  exact ((C4_materialize _ (by decide)).2 (by decide)).1

/-! ### Claim C1: order-invariance and idempotence of reassembly -/

/-- C1: for a non-empty chunk set with pairwise-distinct indices, full
coverage of `[0, N)`, declared total `N` and non-empty payloads, the
materialized output is the same for every delivery permutation, and
re-processing any already-stored chunk with its identical payload changes
neither the completeness verdict nor the materialized output. -/
theorem C1_reassembly_deterministic (N : Nat) (msgs1 msgs2 : List JsonObj)
    (hperm : msgs1.Perm msgs2)
    (hdist : msgs1.Pairwise (fun a b => a.chunk_index ≠ b.chunk_index))
    (hN : 0 < N)
    (htot : ∀ m ∈ msgs1, m.total_chunks = (N : Int))
    (hidx : ∀ m ∈ msgs1, 0 ≤ m.chunk_index ∧ m.chunk_index < (N : Int))
    (hdata : ∀ m ∈ msgs1, m.data ≠ [])
    (hcov : ∀ i : Nat, i < N → ∃ m ∈ msgs1, m.chunk_index = (i : Int)) :
    save_coredump (process_chunks initCore msgs1)
      = save_coredump (process_chunks initCore msgs2)
  ∧ ∀ m ∈ msgs1,
      validate_chunks (process_chunk (process_chunks initCore msgs1) m)
        = validate_chunks (process_chunks initCore msgs1)
      ∧ save_coredump (process_chunk (process_chunks initCore msgs1) m)
        = save_coredump (process_chunks initCore msgs1) := by
  have hdist2 : msgs2.Pairwise (fun a b => a.chunk_index ≠ b.chunk_index) :=
    (hperm.pairwise_iff (fun hab => Ne.symm hab)).mp hdist
  have hmem2 : ∀ m, m ∈ msgs2 ↔ m ∈ msgs1 := fun m => (hperm.mem_iff).symm
  -- the two final lookup functions agree
  have hlook : ∀ k : Nat,
      dictLookup (process_chunks initCore msgs1).chunks k
        = dictLookup (process_chunks initCore msgs2).chunks k := by
    intro k
    by_cases hex : ∃ m ∈ msgs1, (0 ≤ m.chunk_index ∧ m.data ≠ []) ∧ m.chunk_index.toNat = k
    · obtain ⟨m, hm, hok, hkm⟩ := hex
      rw [← hkm]
      rw [stored_after msgs1 initCore m hm hok hdist,
        stored_after msgs2 initCore m ((hmem2 m).mpr hm) hok hdist2]
    · push_neg at hex
      rw [lookup_none_of_no_msg msgs1 initCore k (fun b hb hbok => hex b hb hbok),
        lookup_none_of_no_msg msgs2 initCore k
          (fun b hb hbok => hex b ((hmem2 b).mp hb) hbok)]
  -- both totals are exactly N
  obtain ⟨m0, hm0, hm0idx⟩ := hcov 0 hN
  have hm0ok : 0 ≤ m0.chunk_index ∧ m0.data ≠ [] := ⟨(hidx m0 hm0).1, hdata m0 hm0⟩
  have htot1 : (process_chunks initCore msgs1).total_chunks = (N : Int) := by
    refine le_antisymm ?_ ?_
    · exact total_le_after msgs1 initCore N (fun m hm => le_of_eq (htot m hm)) (by simp [initCore])
    · calc (N : Int) = m0.total_chunks := (htot m0 hm0).symm
        _ ≤ _ := total_ge_of_mem msgs1 initCore m0 hm0 hm0ok
  have htot2 : (process_chunks initCore msgs2).total_chunks = (N : Int) := by
    refine le_antisymm ?_ ?_
    · exact total_le_after msgs2 initCore N
        (fun m hm => le_of_eq (htot m ((hmem2 m).mp hm))) (by simp [initCore])
    · calc (N : Int) = m0.total_chunks := (htot m0 hm0).symm
        _ ≤ _ := total_ge_of_mem msgs2 initCore m0 ((hmem2 m0).mpr hm0) hm0ok
  have hlz1 : dictLookup (process_chunks initCore msgs1).chunks 0 = some m0.data := by
    have := stored_after msgs1 initCore m0 hm0 hm0ok hdist
    rwa [hm0idx] at this
  have hne1 : (process_chunks initCore msgs1).chunks ≠ [] := dictLookup_isSome_ne_nil hlz1
  have hne2 : (process_chunks initCore msgs2).chunks ≠ [] := by
    refine dictLookup_isSome_ne_nil (k := 0) (v := m0.data) ?_
    rw [← hlook 0]
    exact hlz1
  have hobs := obs_eq (process_chunks initCore msgs1) (process_chunks initCore msgs2)
    (htot1.trans htot2.symm) hlook (iff_of_false hne1 hne2)
  refine ⟨hobs.2, ?_⟩
  -- idempotent re-delivery
  intro m hm
  have hok : 0 ≤ m.chunk_index ∧ m.data ≠ [] := ⟨(hidx m hm).1, hdata m hm⟩
  have hstored : dictLookup (process_chunks initCore msgs1).chunks m.chunk_index.toNat
      = some m.data := stored_after msgs1 initCore m hm hok hdist
  have hnd : ((process_chunks initCore msgs1).chunks.map Prod.fst).Nodup :=
    keys_nodup_process msgs1 initCore (by simp [initCore])
  have htle : m.total_chunks ≤ (process_chunks initCore msgs1).total_chunks := by
    rw [htot1, htot m hm]
  have hfix : process_chunk (process_chunks initCore msgs1) m
      = process_chunks initCore msgs1 := by
    unfold process_chunk
    rw [if_pos hok, dictInsert_self_eq hnd hstored, max_eq_left htle]
  rw [hfix]
  exact ⟨rfl, rfl⟩

/-- C1 witness: two chunks delivered in reversed order yield the same
output, and re-delivering either chunk is a no-op. -/
theorem C1_reassembly_deterministic_witness :
    save_coredump (process_chunks initCore
      [{ chunk_index := 1, total_chunks := 2, data := [67, 68] },
       { chunk_index := 0, total_chunks := 2, data := [65, 66] }])
      = save_coredump (process_chunks initCore
      [{ chunk_index := 0, total_chunks := 2, data := [65, 66] },
       { chunk_index := 1, total_chunks := 2, data := [67, 68] }])
  ∧ ∀ m ∈ [({ chunk_index := 1, total_chunks := 2, data := [67, 68] } : JsonObj),
           { chunk_index := 0, total_chunks := 2, data := [65, 66] }],
      validate_chunks (process_chunk (process_chunks initCore
        [{ chunk_index := 1, total_chunks := 2, data := [67, 68] },
         { chunk_index := 0, total_chunks := 2, data := [65, 66] }]) m)
        = validate_chunks (process_chunks initCore
        [{ chunk_index := 1, total_chunks := 2, data := [67, 68] },
         { chunk_index := 0, total_chunks := 2, data := [65, 66] }])
      ∧ save_coredump (process_chunk (process_chunks initCore
        [{ chunk_index := 1, total_chunks := 2, data := [67, 68] },
         { chunk_index := 0, total_chunks := 2, data := [65, 66] }]) m)
        = save_coredump (process_chunks initCore
        [{ chunk_index := 1, total_chunks := 2, data := [67, 68] },
         { chunk_index := 0, total_chunks := 2, data := [65, 66] }]) :=
  C1_reassembly_deterministic 2
    [{ chunk_index := 1, total_chunks := 2, data := [67, 68] },
     { chunk_index := 0, total_chunks := 2, data := [65, 66] }]
    [{ chunk_index := 0, total_chunks := 2, data := [65, 66] },
     { chunk_index := 1, total_chunks := 2, data := [67, 68] }]
    (by decide) (by decide) (by decide) (by decide) (by decide) (by decide) (by decide)

theorem CoreDumpRequester.run_msgs_cons (s : ReqState) (a : MqttMsg) (l : List MqttMsg) :
    CoreDumpRequester.run_msgs s (a :: l) = CoreDumpRequester.run_msgs (CoreDumpRequester.on_message s a) l := rfl

/-- The declared total after `CoreDumpRequester.on_message`: unchanged, unless the message is
a parsed chunk event, in which case it is the `_process_chunk` update. -/
theorem CoreDumpRequester.on_message_core_total (s : ReqState) (m : MqttMsg) :
    (CoreDumpRequester.on_message s m).core.total_chunks = s.core.total_chunks
  ∨ ∃ o, m.jsonPayload = some o ∧
      (CoreDumpRequester.on_message s m).core.total_chunks = (process_chunk s.core o).total_chunks := by
  unfold CoreDumpRequester.on_message
  split_ifs <;> (try (cases hj : m.jsonPayload)) <;>
    first
      | exact Or.inl rfl
      | exact Or.inr ⟨_, rfl, rfl⟩

/-- The chunk map after `CoreDumpRequester.on_message`: unchanged, unless the message is a
parsed chunk event, in which case it is the `_process_chunk` update. -/
theorem CoreDumpRequester.on_message_core_chunks (s : ReqState) (m : MqttMsg) :
    (CoreDumpRequester.on_message s m).core.chunks = s.core.chunks
  ∨ ∃ o, m.jsonPayload = some o ∧
      (CoreDumpRequester.on_message s m).core.chunks = (process_chunk s.core o).chunks := by
  unfold CoreDumpRequester.on_message
  split_ifs <;> (try (cases hj : m.jsonPayload)) <;>
    first
      | exact Or.inl rfl
      | exact Or.inr ⟨_, rfl, rfl⟩

theorem CoreDumpRequester.on_message_completed (s : ReqState) (m : MqttMsg) :
    (CoreDumpRequester.on_message s m).request_completed = (s.request_completed || CoreDumpRequester.completesMsg m) := by
  unfold CoreDumpRequester.on_message CoreDumpRequester.completesMsg
  split_ifs <;> (try cases m.jsonPayload) <;> simp [*]

theorem CoreDumpRequester.run_completed (msgs : List MqttMsg) (s : ReqState) :
    (CoreDumpRequester.run_msgs s msgs).request_completed
      = (s.request_completed || msgs.any CoreDumpRequester.completesMsg) := by
  induction msgs generalizing s with
  | nil => simp [CoreDumpRequester.run_msgs]
  | cons a l ih =>
    rw [CoreDumpRequester.run_msgs_cons, ih, CoreDumpRequester.on_message_completed]
    simp [Bool.or_assoc]

theorem CoreDumpRequester.on_message_total_mono (s : ReqState) (m : MqttMsg) :
    s.core.total_chunks ≤ (CoreDumpRequester.on_message s m).core.total_chunks := by
  rcases CoreDumpRequester.on_message_core_total s m with h | ⟨o, _, h⟩
  · rw [h]
  · rw [h]
    exact process_chunk_total_mono _ _

theorem CoreDumpRequester.run_total_mono (msgs : List MqttMsg) (s : ReqState) :
    s.core.total_chunks ≤ (CoreDumpRequester.run_msgs s msgs).core.total_chunks := by
  induction msgs generalizing s with
  | nil => exact le_refl _
  | cons a l ih =>
    rw [CoreDumpRequester.run_msgs_cons]
    exact le_trans (CoreDumpRequester.on_message_total_mono s a) (ih _)

theorem CoreDumpRequester.on_message_total_le (s : ReqState) (m : MqttMsg) (N : Int)
    (hm : ∀ o, m.jsonPayload = some o → o.total_chunks ≤ N)
    (hs : s.core.total_chunks ≤ N) :
    (CoreDumpRequester.on_message s m).core.total_chunks ≤ N := by
  rcases CoreDumpRequester.on_message_core_total s m with h | ⟨o, ho, h⟩ <;> rw [h]
  · exact hs
  · rw [process_chunk_total]
    split
    · exact max_le hs (hm o ho)
    · exact hs

theorem CoreDumpRequester.run_total_le (msgs : List MqttMsg) (s : ReqState) (N : Int)
    (hub : ∀ m ∈ msgs, ∀ o, m.jsonPayload = some o → o.total_chunks ≤ N)
    (hs : s.core.total_chunks ≤ N) :
    (CoreDumpRequester.run_msgs s msgs).core.total_chunks ≤ N := by
  induction msgs generalizing s with
  | nil => exact hs
  | cons a l ih =>
    rw [CoreDumpRequester.run_msgs_cons]
    exact ih _ (fun m hm => hub m (List.mem_cons_of_mem _ hm))
      (CoreDumpRequester.on_message_total_le s a N (hub a (List.mem_cons_self a l)) hs)

theorem process_chunk_present_mono (s : CoreState) (d : JsonObj) (k : Nat)
    (h : (dictLookup s.chunks k).isSome = true) :
    (dictLookup (process_chunk s d).chunks k).isSome = true := by
  unfold process_chunk
  split
  · rename_i hok
    by_cases hk : k = d.chunk_index.toNat
    · subst hk
      simp [dictLookup_insert_self]
    · simpa [dictLookup_insert_ne _ _ _ _ hk] using h
  · exact h

theorem CoreDumpRequester.on_message_present_mono (s : ReqState) (m : MqttMsg) (k : Nat)
    (h : (dictLookup s.core.chunks k).isSome = true) :
    (dictLookup (CoreDumpRequester.on_message s m).core.chunks k).isSome = true := by
  rcases CoreDumpRequester.on_message_core_chunks s m with h2 | ⟨o, _, h2⟩ <;> rw [h2]
  · exact h
  · exact process_chunk_present_mono _ _ _ h

theorem CoreDumpRequester.run_present_mono (msgs : List MqttMsg) (s : ReqState) (k : Nat)
    (h : (dictLookup s.core.chunks k).isSome = true) :
    (dictLookup (CoreDumpRequester.run_msgs s msgs).core.chunks k).isSome = true := by
  induction msgs generalizing s with
  | nil => exact h
  | cons a l ih =>
    rw [CoreDumpRequester.run_msgs_cons]
    exact ih _ (CoreDumpRequester.on_message_present_mono s a k h)

theorem on_message_chunk_msg (s : ReqState) (i N : Nat) (d : Bytes) :
    CoreDumpRequester.on_message s (chunk_msg i N d)
      = ⟨process_chunk s.core ⟨(i : Int), (N : Int), d, 0⟩, s.request_completed⟩ := rfl

theorem on_message_complete_msg (s : ReqState) (ts : Int) :
    CoreDumpRequester.on_message s (complete_msg ts)
      = ⟨⟨s.core.chunks, s.core.header_info, s.core.total_chunks, ts⟩, true⟩ := rfl

theorem run_present_of_chunk_mem (msgs : List MqttMsg) (s : ReqState) (i N : Nat)
    (d : Bytes) (hm : chunk_msg i N d ∈ msgs) (hd : d ≠ []) :
    (dictLookup (CoreDumpRequester.run_msgs s msgs).core.chunks i).isSome = true := by
  induction msgs generalizing s with
  | nil => cases hm
  | cons a l ih =>
    rw [CoreDumpRequester.run_msgs_cons]
    rcases List.mem_cons.mp hm with rfl | hm2
    · refine CoreDumpRequester.run_present_mono l _ i ?_
      rw [on_message_chunk_msg]
      have hok : 0 ≤ (i : Int) ∧ d ≠ [] := ⟨Int.natCast_nonneg i, hd⟩
      simp [process_chunk, hok, dictLookup_insert_self]
    · exact ih _ hm2

theorem run_total_ge_of_chunk_mem (msgs : List MqttMsg) (s : ReqState) (i N : Nat)
    (d : Bytes) (hm : chunk_msg i N d ∈ msgs) (hd : d ≠ []) :
    (N : Int) ≤ (CoreDumpRequester.run_msgs s msgs).core.total_chunks := by
  induction msgs generalizing s with
  | nil => cases hm
  | cons a l ih =>
    rw [CoreDumpRequester.run_msgs_cons]
    rcases List.mem_cons.mp hm with rfl | hm2
    · refine le_trans ?_ (CoreDumpRequester.run_total_mono l _)
      rw [on_message_chunk_msg]
      have hok : 0 ≤ (i : Int) ∧ d ≠ [] := ⟨Int.natCast_nonneg i, hd⟩
      show (N : Int) ≤ (process_chunk s.core ⟨(i : Int), (N : Int), d, 0⟩).total_chunks
      rw [process_chunk_total, if_pos hok]
      exact le_max_right _ _
    · exact ih _ hm2

theorem run_completed_of_mem (msgs : List MqttMsg) (m : MqttMsg)
    (hm : m ∈ msgs) (hc : CoreDumpRequester.completesMsg m = true) :
    (CoreDumpRequester.run_msgs initReq msgs).request_completed = true := by
  rw [CoreDumpRequester.run_completed]
  have hany : msgs.any CoreDumpRequester.completesMsg = true :=
    List.any_eq_true.mpr ⟨m, hm, hc⟩
  simp [initReq, hany]

/-! ### Claim C5: success conditions of a request session -/

/-- C5, counterexample.  A "nothing to transfer" status ends the wait
(`request_completed` is set) but the session does not resolve `Succeeded`:
`request_coredump` still returns `_validate_chunks()`, which is `False`
with an empty buffer, so the verdict is `Failed` rather than the claimed
vacuous success. -/
theorem C5_counterexample :
    request_verdict [status_nodata_msg] = Verdict.failed
  ∧ (CoreDumpRequester.run_msgs initReq [status_nodata_msg]).request_completed = true := by
  decide

/-- C5, amended: the session resolves `Succeeded` when an explicit
`Complete` event arrives and the buffer validates complete; in particular,
for declared total `N`, delivery of chunks `0..N-1` (non-empty payloads)
plus a `Complete` event, in any relative order before the deadline, yields
`Succeeded`.  A "nothing to transfer" `Status` event ends the wait but
yields `Failed` when no chunks were received, since the final verdict
still requires chunk validation. -/
theorem C5_success_conditions (N : Nat) (ts : Int) (pl : Nat → Bytes)
    (msgs : List MqttMsg)
    (hN : 0 < N)
    (hpl : ∀ i, i < N → pl i ≠ [])
    (hperm : msgs.Perm
      ((List.range N).map (fun i => chunk_msg i N (pl i)) ++ [complete_msg ts])) :
    request_verdict msgs = Verdict.succeeded
  ∧ request_verdict [status_nodata_msg] = Verdict.failed
  ∧ (CoreDumpRequester.run_msgs initReq [status_nodata_msg]).request_completed = true := by
  refine ⟨?_, by decide, by decide⟩
  have hcm : complete_msg ts ∈ msgs := hperm.mem_iff.mpr (by simp)
  have hcomp : (CoreDumpRequester.run_msgs initReq msgs).request_completed = true :=
    run_completed_of_mem msgs _ hcm rfl
  have hchunk : ∀ i, i < N → chunk_msg i N (pl i) ∈ msgs := fun i hi =>
    hperm.mem_iff.mpr
      (List.mem_append_left _ (List.mem_map.mpr ⟨i, List.mem_range.mpr hi, rfl⟩))
  have hub : ∀ m ∈ msgs, ∀ o, m.jsonPayload = some o → o.total_chunks ≤ (N : Int) := by
    intro m hm o ho
    rcases List.mem_append.mp (hperm.mem_iff.mp hm) with hmem | hmem
    · obtain ⟨i, _, rfl⟩ := List.mem_map.mp hmem
      simp only [chunk_msg, Option.some.injEq] at ho
      rw [← ho]
    · simp only [List.mem_singleton] at hmem
      subst hmem
      simp only [complete_msg, Option.some.injEq] at ho
      rw [← ho]
      exact Int.natCast_nonneg N
  have htotle := CoreDumpRequester.run_total_le msgs initReq (N : Int) hub
    (by simp [initReq, initCore])
  have htotge := run_total_ge_of_chunk_mem msgs initReq 0 N (pl 0) (hchunk 0 hN) (hpl 0 hN)
  have htot : (CoreDumpRequester.run_msgs initReq msgs).core.total_chunks = (N : Int) :=
    le_antisymm htotle htotge
  have hpres : ∀ i, i < N →
      (dictLookup (CoreDumpRequester.run_msgs initReq msgs).core.chunks i).isSome = true :=
    fun i hi => run_present_of_chunk_mem msgs initReq i N (pl i) (hchunk i hi) (hpl i hi)
  have h0le : 0 ≤ (CoreDumpRequester.run_msgs initReq msgs).core.total_chunks := by
    rw [htot]
    exact Int.natCast_nonneg N
  have hval : validate_chunks (CoreDumpRequester.run_msgs initReq msgs).core = true := by
    refine (validate_chunks_iff _ h0le).mpr ⟨?_, ?_⟩
    · rw [htot]
      exact_mod_cast hN
    · intro i hi
      refine hpres i ?_
      rw [htot] at hi
      simpa using hi
  simp [request_verdict, hcomp, hval]

/-- C5 witness: chunks 1, 0 and the completion event interleaved. -/
theorem C5_success_conditions_witness :
    request_verdict [chunk_msg 1 2 [66], complete_msg 7, chunk_msg 0 2 [65]]
      = Verdict.succeeded
  ∧ request_verdict [status_nodata_msg] = Verdict.failed
  ∧ (CoreDumpRequester.run_msgs initReq [status_nodata_msg]).request_completed = true :=
  C5_success_conditions 2 7 (fun i => [65 + i])
    [chunk_msg 1 2 [66], complete_msg 7, chunk_msg 0 2 [65]]
    (by decide) (by decide) (by decide)

theorem completes_of_matching_error {m : MqttMsg}
    (h : is_matching_error m = true) : CoreDumpRequester.completesMsg m = true := by
  unfold is_matching_error at h
  simp only [Bool.and_eq_true, decide_eq_true_eq, beq_iff_eq] at h
  obtain ⟨⟨h1, h2⟩, h3⟩ := h
  unfold CoreDumpRequester.completesMsg
  rw [if_pos h1, h2]
  simp [h3]

/-- C6, counterexample.  A matching error event after ALL declared chunks
have arrived does not produce a `Failed` verdict: the error sets the
completion flag, the buffer validates complete, and the session resolves
`Succeeded` (so `main` goes on to materialize the file). -/
theorem C6_counterexample :
    request_verdict [chunk_msg 0 1 [65], error_coredump_msg] = Verdict.succeeded
  ∧ request_verdict [chunk_msg 0 1 [65], error_coredump_msg] ≠ Verdict.failed := by
  decide

/-- C6, amended: a matching `Error` event ends the session wait, and the
verdict is `Failed` whenever the buffer does not validate complete (no
chunks, or only part of them); stored chunks are retained in the final
state for diagnostics, and the caller does not materialize a failed
session.  (If all declared chunks had already arrived, the verdict would
instead be `Succeeded`.) -/
theorem C6_error_event (msgs : List MqttMsg)
    (herr : ∃ e ∈ msgs, is_matching_error e = true)
    (hval : validate_chunks (CoreDumpRequester.run_msgs initReq msgs).core = false) :
    request_verdict msgs = Verdict.failed
  ∧ request_and_save msgs = none
  ∧ ∀ i N : Nat, ∀ d : Bytes, chunk_msg i N d ∈ msgs → d ≠ [] →
      (dictLookup (CoreDumpRequester.run_msgs initReq msgs).core.chunks i).isSome
        = true := by
  obtain ⟨e, he, hmatch⟩ := herr
  have hcomp := run_completed_of_mem msgs e he (completes_of_matching_error hmatch)
  have hv : request_verdict msgs = Verdict.failed := by
    simp [request_verdict, hcomp, hval]
  refine ⟨hv, ?_, ?_⟩
  · simp [request_and_save, hv]
  · intro i N d hm hd
    exact run_present_of_chunk_mem msgs initReq i N d hm hd

/-- C6 witness: one of two declared chunks plus a matching error. -/
theorem C6_error_event_witness :
    request_verdict [chunk_msg 0 2 [65], error_coredump_msg] = Verdict.failed
  ∧ request_and_save [chunk_msg 0 2 [65], error_coredump_msg] = none
  ∧ ∀ i N : Nat, ∀ d : Bytes,
      chunk_msg i N d ∈ [chunk_msg 0 2 [65], error_coredump_msg] → d ≠ [] →
      (dictLookup (CoreDumpRequester.run_msgs initReq
        [chunk_msg 0 2 [65], error_coredump_msg]).core.chunks i).isSome = true :=
  C6_error_event [chunk_msg 0 2 [65], error_coredump_msg] (by decide) (by decide)

/-! ### Claim C7: timeout -/

/-- C7: a session whose trace contains no qualifying event (no matching
status, no matching error, no parsed completion) resolves `TimedOut` —
including the empty trace with zero messages.  The wait loop polls the
flag and deadline once per second (`time.sleep(1)` per iteration): with
the flag never set it exits exactly at the deadline, and it never runs
past the deadline for any flag behaviour. -/
theorem C7_timeout (msgs : List MqttMsg) (T : Nat)
    (hq : ∀ m ∈ msgs, CoreDumpRequester.completesMsg m = false) :
    request_verdict msgs = Verdict.timedOut
  ∧ poll_wait (fun _ => false) T 0 = T
  ∧ ∀ flagAt : Nat → Bool, ∀ fuel t : Nat, poll_wait flagAt fuel t ≤ t + fuel := by
  refine ⟨?_, ?_, ?_⟩
  · have hany : msgs.any CoreDumpRequester.completesMsg = false := by
      rw [List.any_eq_false]
      intro m hm
      simp [hq m hm]
    have hcomp : (CoreDumpRequester.run_msgs initReq msgs).request_completed = false := by
      rw [CoreDumpRequester.run_completed]
      simp [initReq, hany]
    simp [request_verdict, hcomp]
  · have hgen : ∀ fuel t : Nat, poll_wait (fun _ => false) fuel t = t + fuel := by
      intro fuel
      induction fuel with
      | zero => intro t; simp [poll_wait]
      | succ n ih =>
        intro t
        simp only [poll_wait, Bool.false_eq_true, if_false, ih]
        omega
    simpa using hgen T 0
  · intro flagAt fuel
    induction fuel with
    | zero => intro t; simp [poll_wait]
    | succ n ih =>
      intro t
      simp only [poll_wait]
      split
      · omega
      · have := ih (t + 1)
        omega

/-- C7 witness: the empty trace with a 120 s deadline. -/
theorem C7_timeout_witness :
    request_verdict [] = Verdict.timedOut
  ∧ poll_wait (fun _ => false) 120 0 = 120
  ∧ ∀ flagAt : Nat → Bool, ∀ fuel t : Nat, poll_wait flagAt fuel t ≤ t + fuel :=
  C7_timeout [] 120 (by simp)

/-- C10: in device-specific mode the subscriptions match every chunk topic
but neither the header nor the complete topic; in broadcast mode the
coredump filter matches header and complete topics but no subscription
matches any chunk topic.  Hence in each mode at least one coredump event
kind is never delivered to the message handler. -/
theorem C10_subscription_filters (dev idx : String) :
    ((device_subs dev).any (fun f => filter_matches f (chunk_topic_of dev idx))) = true
  ∧ ((device_subs dev).any (fun f => filter_matches f (header_topic_of dev))) = false
  ∧ ((device_subs dev).any (fun f => filter_matches f (complete_topic_of dev))) = false
  ∧ filter_matches ["open_grid_monitor", "+", "coredump", "+"] (header_topic_of dev) = true
  ∧ filter_matches ["open_grid_monitor", "+", "coredump", "+"] (complete_topic_of dev) = true
  ∧ (broadcast_subs.any (fun f => filter_matches f (chunk_topic_of dev idx))) = false := by
  refine ⟨?_, ?_, ?_, ?_, ?_, ?_⟩ <;>
    simp [device_subs, broadcast_subs, chunk_topic_of, header_topic_of,
      complete_topic_of, filter_matches]

theorem mem_addDevice {acc : List String} {d x : String} :
    x ∈ addDevice acc d ↔ x ∈ acc ∨ x = d := by
  unfold addDevice
  split
  · rename_i h
    constructor
    · exact Or.inl
    · rintro (hx | rfl)
      · exact hx
      · exact h
  · simp [List.mem_append]

theorem mem_foldl_addDevice (l : List Sighting) (acc : List String) (x : String) :
    x ∈ l.foldl (fun a sg => addDevice a sg.device) acc
      ↔ x ∈ acc ∨ ∃ sg ∈ l, sg.device = x := by
  induction l generalizing acc with
  | nil => simp
  | cons a l2 ih =>
    simp only [List.foldl_cons, ih, mem_addDevice, List.mem_cons]
    constructor
    · rintro ((hx | rfl) | ⟨sg, hsg, rfl⟩)
      · exact Or.inl hx
      · exact Or.inr ⟨a, Or.inl rfl, rfl⟩
      · exact Or.inr ⟨sg, Or.inr hsg, rfl⟩
    · rintro (hx | ⟨sg, (rfl | hsg), rfl⟩)
      · exact Or.inl (Or.inl hx)
      · exact Or.inl (Or.inr rfl)
      · exact Or.inr ⟨sg, hsg, rfl⟩

theorem mem_discoveredAt {sightings : List Sighting} {t : Nat} {x : String} :
    x ∈ discoveredAt sightings t
      ↔ ∃ sg ∈ sightings, sg.tick ≤ t ∧ sg.device = x := by
  unfold discoveredAt
  rw [mem_foldl_addDevice]
  simp [List.mem_filter]
  constructor
  · rintro ⟨sg, ⟨hsg, htick⟩, rfl⟩
    exact ⟨sg, hsg, htick, rfl⟩
  · rintro ⟨sg, hsg, htick, rfl⟩
    exact ⟨sg, ⟨hsg, htick⟩, rfl⟩

theorem mem_ordIns {x a : String} {l : List String} :
    a ∈ ordIns x l ↔ a = x ∨ a ∈ l := by
  induction l with
  | nil => simp [ordIns]
  | cons y ys ih =>
    unfold ordIns
    split
    · simp
    · simp [ih]
      tauto

theorem mem_pySorted {a : String} {l : List String} :
    a ∈ pySorted l ↔ a ∈ l := by
  induction l with
  | nil => simp [pySorted]
  | cons x xs ih => simp [pySorted, mem_ordIns, ih]

theorem pairwise_ordIns (x : String) (l : List String)
    (h : l.Pairwise (fun a b => strLe a b = true)) :
    (ordIns x l).Pairwise (fun a b => strLe a b = true) := by
  induction l with
  | nil => simp [ordIns]
  | cons y ys ih =>
    rcases List.pairwise_cons.mp h with ⟨hy, hys⟩
    by_cases hxy : strLe x y = true
    · rw [ordIns, if_pos hxy]
      refine List.pairwise_cons.mpr ⟨?_, h⟩
      intro b hb
      rcases List.mem_cons.mp hb with rfl | hb2
      · exact hxy
      · exact strLe_trans hxy (hy b hb2)
    · have hyx : strLe y x = true := (strLe_total x y).resolve_left hxy
      rw [ordIns, if_neg hxy]
      refine List.pairwise_cons.mpr ⟨?_, ih hys⟩
      intro b hb
      rcases mem_ordIns.mp hb with rfl | hb2
      · exact hyx
      · exact hy b hb2

theorem pairwise_pySorted (l : List String) :
    (pySorted l).Pairwise (fun a b => strLe a b = true) := by
  induction l with
  | nil => simp [pySorted]
  | cons x xs ih => exact pairwise_ordIns x (pySorted xs) ih

theorem pySorted_head_min (l : List String) (x : String)
    (hx : (pySorted l).head? = some x) : ∀ y ∈ pySorted l, strLe x y = true := by
  have hs := pairwise_pySorted l
  cases hps : pySorted l with
  | nil => rw [hps] at hx; cases hx
  | cons a as =>
    rw [hps] at hx hs
    simp only [List.head?_cons, Option.some.injEq] at hx
    subst hx
    intro y hy
    rcases List.mem_cons.mp hy with rfl | h2
    · exact strLe_refl _
    · exact (List.pairwise_cons.mp hs).1 y h2

/-! ### Claim C8: early-stop discovery and automatic selection -/

/-- C8, counterexample.  Two devices sighted at the same poll tick, `"b"`
first: Python stores them in a `set` and selects from
`sorted(list(...))`, so selection yields the lexicographically first
identifier `"a"`, not the arrival-first `"b"` — arrival order is not
preserved. -/
theorem C8_counterexample :
    ([⟨"b", 1⟩, ⟨"a", 1⟩] : List Sighting).head?.map Sighting.device = some "b"
  ∧ select_device_auto (discover_devices_auto [⟨"b", 1⟩, ⟨"a", 1⟩] 10) = some "a" := by
  decide

/-- C8, amended: under early-stop discovery the window ends at the first
poll tick with a non-empty registry, so a device all of whose sightings
arrive after the exit tick is not registered (in particular, `dev1` at
0.1 s and `dev2` at 0.4 s under a 1 s window leave only `dev1` and
selection yields `dev1`); automatic `FirstFound` selection yields the
lexicographically first registered identifier (the registry is an
unordered set, so arrival order is not preserved). -/
theorem C8_discovery_selection (sightings : List Sighting) (T : Nat) (d : String)
    (hd : ∀ sg ∈ sightings, sg.device = d → discover_loop sightings T 0 < sg.tick) :
    d ∉ discover_devices_auto sightings T
  ∧ (∀ x, select_device_auto (discover_devices_auto sightings T) = some x →
      x ∈ discover_devices_auto sightings T
      ∧ ∀ y ∈ discover_devices_auto sightings T, strLe x y = true)
  ∧ discover_devices_auto [⟨"dev1", 1⟩, ⟨"dev2", 4⟩] 10 = ["dev1"]
  ∧ select_device_auto (discover_devices_auto [⟨"dev1", 1⟩, ⟨"dev2", 4⟩] 10)
      = some "dev1" := by
  refine ⟨?_, ?_, by decide, by decide⟩
  · intro hmem
    rw [discover_devices_auto] at hmem
    obtain ⟨sg, hsg, htick, hdev⟩ := mem_discoveredAt.mp (mem_pySorted.mp hmem)
    exact absurd htick (not_le.mpr (hd sg hsg hdev))
  · intro x hx
    exact ⟨List.mem_of_mem_head? hx, pySorted_head_min _ x hx⟩

/-- C8 witness: the spec example, `dev1` at tick 1 and `dev2` at tick 4 in
a 10-tick (1 s) window. -/
theorem C8_discovery_selection_witness :
    "dev2" ∉ discover_devices_auto [⟨"dev1", 1⟩, ⟨"dev2", 4⟩] 10
  ∧ (∀ x, select_device_auto (discover_devices_auto [⟨"dev1", 1⟩, ⟨"dev2", 4⟩] 10)
        = some x →
      x ∈ discover_devices_auto [⟨"dev1", 1⟩, ⟨"dev2", 4⟩] 10
      ∧ ∀ y ∈ discover_devices_auto [⟨"dev1", 1⟩, ⟨"dev2", 4⟩] 10, strLe x y = true)
  ∧ discover_devices_auto [⟨"dev1", 1⟩, ⟨"dev2", 4⟩] 10 = ["dev1"]
  ∧ select_device_auto (discover_devices_auto [⟨"dev1", 1⟩, ⟨"dev2", 4⟩] 10)
      = some "dev1" :=
  C8_discovery_selection [⟨"dev1", 1⟩, ⟨"dev2", 4⟩] 10 "dev2" (by decide)

/-! ### Claim C9: the "operation started" status handling is dead code -/

/-- C9, code bug.  The spec requires a recognised "operation started"
status to clear the sample history and record a new start time; but the
handler can never do either: the branch at line 170 repeats the condition
of the branch at line 136 verbatim, so it is unreachable, `ota_start_time`
is never assigned by the handler, and the sample history only ever grows.
Concretely, a `"Starting OTA"` status for the selected device leaves the
start time `none` and the prior sample history intact. -/
theorem C9_started_status_dead (s : OtaState) (now : Nat) (topic : List String)
    (payload : String) :
    (MQTTOTAUpdater.on_message s now topic payload).ota_start_time = s.ota_start_time
  ∧ (∃ t, (MQTTOTAUpdater.on_message s now topic payload).ota_progress_data
      = s.ota_progress_data ++ t)
  ∧ (MQTTOTAUpdater.on_message ⟨["dev1"], some "dev1", none, ["sample0"], []⟩ 7
      ["open_grid_monitor", "dev1", "status"] "Starting OTA").ota_start_time = none
  ∧ (MQTTOTAUpdater.on_message ⟨["dev1"], some "dev1", none, ["sample0"], []⟩ 7
      ["open_grid_monitor", "dev1", "status"] "Starting OTA").ota_progress_data
      = ["sample0"] := by
  refine ⟨?_, ?_, by decide, by decide⟩
  · show (MQTTOTAUpdater.route s now topic payload).ota_start_time = s.ota_start_time
    unfold MQTTOTAUpdater.route
    split_ifs <;> rfl
  · show ∃ t, (MQTTOTAUpdater.route s now topic payload).ota_progress_data
      = s.ota_progress_data ++ t
    unfold MQTTOTAUpdater.route
    split_ifs <;>
      first
        | exact ⟨[], (List.append_nil _).symm⟩
        | exact ⟨[payload], rfl⟩
